import Mathlib

/-!
Verification of the grid-search visualization routine of sklearn-evaluation
(`src/sklearn_evaluation/plot/grid_search.py`).

The embedding models the data-reshaping pipeline of `grid_search`,
`_grid_search_single` and `_grid_search_double`: validation, subset
filtering, grouping, sorting, label construction and the heatmap matrix.
Calls into matplotlib (`ax.errorbar`, `ax.imshow`, tick/label setters,
`BarShifter`) only hand the computed arrays and strings to the rendering
surface, so the model's outputs are exactly those arrays and strings.

Helper functions imported from `sklearn_evaluation.util` are not part of the
sources; they are modelled from the spec and are marked as such below.
-/

deriving instance DecidableEq for Except

/-- A hyperparameter value.  The records in scope hold integers, strings and
Python `None` in parameter positions. -/
inductive Value where
  | vint : Int → Value
  | vstr : String → Value
  | vnone : Value
deriving DecidableEq, Repr

/-- A score.  Python stores float scores, but the routine never computes with
them: every score is only copied from a record into an output array, and the
only other matrix content is the constant zero fill.  An exact formal
fraction `num / den` is therefore an adequate carrier; `Score.mk 1 2` stands
for the literal 0.5, `Score.mk 0 1` for 0. -/
structure Score where
  num : Int
  den : Nat
deriving DecidableEq, Repr

/-- The numeric zero used by `np.zeros`. -/
def Score.zero : Score := ⟨0, 1⟩

/-- One element of the `grid_scores_` named-tuple list built inside
`grid_search`: `gs(parameters, mean_validation_score, std_test_score)`. -/
structure ResultRecord where
  parameters : List (String × Value)
  mean_validation_score : Score
  std_test_score : Score
deriving DecidableEq, Repr

/-- The key a record is grouped under: a tuple of `(name, value)` pairs. -/
abbrev GroupKey := List (String × Value)

/-- `record.parameters[p]`.  Python raises `KeyError` on a missing key;
theorems that depend on the value carry presence hypotheses so the
`Value.vnone` default is never what is observed. -/
def param_value (r : ResultRecord) (p : String) : Value :=
  (r.parameters.lookup p).getD Value.vnone

/-- Modelled from the spec: `_get_params_value` of `sklearn_evaluation.util`
(the module is not under `src/`).  The spec calls this the "hashable
projection of selected keys": it maps a record to the tuple of
`(name, value)` pairs of the selected parameter names. -/
def get_params_value (ps : List String) (r : ResultRecord) : GroupKey :=
  ps.map (fun p => (p, param_value r p))

/-- Append `x` to the first group holding key `k`, or open a new group at the
end: one insertion step of a Python `defaultdict(list)` under dict insertion
order. -/
def add_to_group [DecidableEq K] (k : K) (x : α) :
    List (K × List α) → List (K × List α)
  | [] => [(k, [x])]
  | (k2, xs) :: rest =>
    if k2 = k then (k2, xs ++ [x]) :: rest
    else (k2, xs) :: add_to_group k x rest

/-- Modelled from the spec: `_group_by` of `sklearn_evaluation.util`.  The
spec: "Group remaining records by the full value-tuple of the non-varied
parameters" — a mapping from each key to the list of elements sharing it,
keys in first-encounter order, elements kept in input order. -/
def group_by [DecidableEq K] (data : List α) (f : α → K) : List (K × List α) :=
  data.foldl (fun acc x => add_to_group (f x) x acc) []

/-- Python `str()` of a parameter value. -/
def value_str : Value → String
  | .vint n => toString n
  | .vstr s => s
  | .vnone => "None"

/-- `'{}: {}'.format(key, value)` over the pairs of a group key, joined with
`", "`: the legend label of a series. -/
def label_of (k : GroupKey) : String :=
  String.intercalate ", " (k.map (fun p => p.1 ++ ": " ++ value_str p.2))

/-- Lexicographic code-point comparison of character lists: Python string
`<=`. -/
def lex_le : List Char → List Char → Bool
  | [], _ => true
  | _ :: _, [] => false
  | a :: as, b :: bs =>
    if a.toNat < b.toNat then true
    else if a.toNat = b.toNat then lex_le as bs
    else false

/-- Python `<=` on strings. -/
def string_le (a b : String) : Bool := lex_le a.data b.data

/-- Insert `x` into an ascending list, before the first element it is `le`
to: the insertion step of a stable sort. -/
def stable_insert (le : α → α → Bool) (x : α) : List α → List α
  | [] => [x]
  | y :: ys => if le x y then x :: y :: ys else y :: stable_insert le x ys

/-- Python's builtin `sorted`, a stable comparison sort.  (Stable insertion
sort; any stable sort computes the same function.) -/
def py_sorted (le : α → α → Bool) : List α → List α
  | [] => []
  | x :: xs => stable_insert le x (py_sorted le xs)

/-- Modelled from the spec: `_sorted_map_iter` of `sklearn_evaluation.util`.
The spec says `sort` controls "whether groups are ordered alphabetically by
label or left in encounter order", so with `sort = true` the entries are
ordered (stably) by the label string of their key, and otherwise left in
insertion order. -/
def sorted_map_iter (groups : List (GroupKey × α)) (sort : Bool) :
    List (GroupKey × α) :=
  if sort then
    py_sorted (fun a b => string_le (label_of a.1) (label_of b.1)) groups
  else groups

/-- A caller-supplied subset: parameter names each with the list of admitted
values (`{'n_estimators': [1, 10]}`). -/
abbrev Subset := List (String × List Value)

/-- `subset.keys()`. -/
def subset_keys (s : Subset) : List String := s.map Prod.fst

/-- Modelled from the spec: `_mapping_to_tuple_pairs` of
`sklearn_evaluation.util` — the cartesian product of the subset's per-key
value choices, each outcome a tuple of `(name, value)` pairs. -/
def mapping_to_tuple_pairs : Subset → List GroupKey
  | [] => [[]]
  | (k, vs) :: rest =>
    (vs.map (fun v => (k, v))).flatMap
      (fun p => (mapping_to_tuple_pairs rest).map (fun t => p :: t))

/-- Modelled from the spec: `_flatten_list` of `sklearn_evaluation.util` —
one-level flattening of a list of lists. -/
def flatten_list (l : List (List α)) : List α := l.flatten

/-- The subset-filtering block shared by both paths:
group by the subset's keys, iterate (optionally label-sorted), and keep only
the groups whose key is one of the subset's admitted combinations. -/
def subset_filter (grid_scores : List ResultRecord) (s : Subset) (sort : Bool) :
    List (GroupKey × List ResultRecord) :=
  (sorted_map_iter (group_by grid_scores (get_params_value (subset_keys s))) sort).filter
    (fun p => (mapping_to_tuple_pairs s).contains p.1)

/-- The validation failures of the routine; each constructor stands for one
exception surfaced to the caller:
* `changeNone`     — "change can't be None, you need to select at least one value …"
* `indexError`     — `grid_scores[0]` on an empty record collection (`IndexError`)
* `invalidParam p` — "`p` is not a valid parameter"
* `emptySubset`    — "Your subset didn't match any data verify that the values are correct."
* `seqSelector l`  — the single path entered with a length-1 sequence selector:
  `set_of_string_keys.remove(sequence)` raises (`TypeError` for an unhashable
  list, `KeyError` → `ValueError` for a tuple)
* `arity`          — "change must have length 1 or 2 or be a string"
* `duplicateParam` — "You need to pass two different parameters"
* `ambiguousGroup` — "More than one result matched your criteria. …" -/
inductive GSError where
  | changeNone : GSError
  | indexError : GSError
  | invalidParam : String → GSError
  | emptySubset : GSError
  | seqSelector : List String → GSError
  | arity : GSError
  | duplicateParam : GSError
  | ambiguousGroup : GSError
deriving DecidableEq, Repr

/-- The data handed to the plotting surface for one series of the
single-parameter chart: legend label, x values (the change-parameter values),
y values (mean scores) and the error-bar sizes (std scores). -/
structure SeriesData where
  label : String
  x : List Value
  y : List Score
  stds : List Score
deriving DecidableEq, Repr

/-- `params = set(grid_scores[0].parameters.keys()); params.remove(change)`:
the non-varied parameter names.  Python set iteration order is unspecified;
first-record insertion order is one admissible refinement. -/
def non_varied_params (g0 : ResultRecord) (change : String) : List String :=
  ((g0.parameters.map Prod.fst).dedup).filter (fun p => p ≠ change)

/-- The grouping stage of `_grid_search_single`: validation, optional subset
filtering, and grouping of the surviving records by the value-tuple of the
non-varied parameters. -/
def single_groups (grid_scores : List ResultRecord) (change : String)
    (subset : Option Subset) (sort : Bool) :
    Except GSError (List (GroupKey × List ResultRecord)) :=
  match grid_scores with
  | [] => .error .indexError
  | g0 :: _ =>
    if change ∈ (g0.parameters.map Prod.fst).dedup then
      let params := non_varied_params g0 change
      match subset with
      | some s =>
        if s.isEmpty then .ok (group_by grid_scores (get_params_value params))
        else
          let kept := subset_filter grid_scores s sort
          let gs2 := flatten_list (kept.map Prod.snd)
          let groups := group_by gs2 (get_params_value params)
          if groups.isEmpty then .error .emptySubset else .ok groups
      | none => .ok (group_by grid_scores (get_params_value params))
    else .error (.invalidParam change)

/-- `_grid_search_single`: the grouping stage followed by the per-group
extraction of the plotted arrays (optionally label-sorted).  The `kind`
argument only chooses the renderer (bar vs errorbar) for the same per-group
data, so it does not appear here. -/
def grid_search_single (grid_scores : List ResultRecord) (change : String)
    (subset : Option Subset) (sort : Bool) :
    Except GSError (List SeriesData) :=
  match single_groups grid_scores change subset sort with
  | .error e => .error e
  | .ok groups =>
    .ok ((sorted_map_iter groups sort).map (fun p =>
      { label := label_of p.1
        x := p.2.map (fun r => param_value r change)
        y := p.2.map (fun r => r.mean_validation_score)
        stds := p.2.map (fun r => r.std_test_score) }))

/-- Natural boolean order of parameter values; Python compares integers
numerically and strings lexicographically.  Comparing values of different
types raises `TypeError` in Python — modelled by a fixed tag order, which is
never exercised on well-formed inputs (one parameter, one value type). -/
def Value.leB : Value → Value → Bool
  | .vnone, _ => true
  | _, .vnone => false
  | .vint a, .vint b => a ≤ b
  | .vint _, .vstr _ => true
  | .vstr _, .vint _ => false
  | .vstr a, .vstr b => string_le a b

/-- The sort key `lambda x: (x[1] is None, x[1])` of the double path: pairs
with a `None` value sort last, the rest by the natural order of the value. -/
def none_last_le (a b : String × Value) : Bool :=
  match a.2, b.2 with
  | .vnone, .vnone => true
  | .vnone, _ => false
  | _, .vnone => true
  | x, y => Value.leB x y

/-- `matrix[i][j]` of a row-major matrix. -/
def get_cell (mat : List (List Score)) (i j : Nat) : Score :=
  (mat.getD i []).getD j Score.zero

/-- `matrix[i][j] = v`. -/
def set_cell (mat : List (List Score)) (i j : Nat) (v : Score) :
    List (List Score) :=
  mat.set i ((mat.getD i []).set j v)

/-- `matrix = np.zeros((rows, cols))` followed by
`for (j, i), v in m.items(): matrix[i][j] = v`. -/
def fill_matrix (entries : List ((Nat × Nat) × Score)) (rows cols : Nat) :
    List (List Score) :=
  entries.foldl (fun acc e => set_cell acc e.1.2 e.1.1 e.2)
    (List.replicate rows (List.replicate cols Score.zero))

/-- Placeholder pair for `k[0]` / `k[1]` list access; the grouping keys of
the double path always have exactly two entries, so it is never read. -/
def dflt_pair : String × Value := ("", Value.vnone)

/-- Placeholder record for `v[0]` list access; the groups produced by
`group_by` are always non-empty, so it is never read. -/
def dflt_record : ResultRecord := ⟨[], Score.zero, Score.zero⟩

/-- Everything the double path hands to the plotting surface: the sorted
row/col keys, the heatmap matrix and the tick label strings. -/
structure DoubleResult where
  row_names : List (String × Value)
  col_names : List (String × Value)
  matrix : List (List Score)
  row_labels : List String
  col_labels : List String
deriving DecidableEq, Repr

/-- The subset-filtering prefix of `_grid_search_double`: with no subset the
records pass through; with a subset the shared filtering block runs and an
empty result is rejected ("Your subset didn't match any data …"). -/
def double_filtered (grid_scores : List ResultRecord) (subset : Option Subset)
    (sort : Bool) : Except GSError (List ResultRecord) :=
  match subset with
  | some s =>
    let kept := subset_filter grid_scores s sort
    if kept.isEmpty then .error .emptySubset
    else .ok (flatten_list (kept.map Prod.snd))
  | none => .ok grid_scores

/-- The position of a value in a list (the `x_coord` / `y_coord` dicts map
each name/value pair to its position in the sorted axis list). -/
def index_of [DecidableEq γ] (a : γ) : List γ → Nat
  | [] => 0
  | b :: l => if b = a then 0 else index_of a l + 1

/-- `matrix_elements = {k: v[0] for k, v in matrix_elements.items()}`: each
group keeps its unique record. -/
def elems_of (matrix_elements : List (GroupKey × List ResultRecord)) :
    List (GroupKey × ResultRecord) :=
  matrix_elements.map (fun p => (p.1, p.2.headD dflt_record))

/-- `row_names = sorted(set(t[0] for t in keys), key=(x[1] is None, x[1]))`. -/
def row_names_of (matrix_elements : List (GroupKey × List ResultRecord)) :
    List (String × Value) :=
  py_sorted none_last_le
    (((elems_of matrix_elements).map (fun p => p.1.getD 0 dflt_pair)).dedup)

/-- `col_names = sorted(set(t[1] for t in keys), key=(x[1] is None, x[1]))`. -/
def col_names_of (matrix_elements : List (GroupKey × List ResultRecord)) :
    List (String × Value) :=
  py_sorted none_last_le
    (((elems_of matrix_elements).map (fun p => p.1.getD 1 dflt_pair)).dedup)

/-- `m = {(x_coord[k[1]], y_coord[k[0]]): v for k, v in matrix_elements}`
paired with each record's mean score: the matrix assignments. -/
def entries_of (matrix_elements : List (GroupKey × List ResultRecord)) :
    List ((Nat × Nat) × Score) :=
  (elems_of matrix_elements).map (fun p =>
    ((index_of (p.1.getD 1 dflt_pair) (col_names_of matrix_elements),
      index_of (p.1.getD 0 dflt_pair) (row_names_of matrix_elements)),
     p.2.mean_validation_score))

/-- The tail of `_grid_search_double` after subset filtering and grouping by
the two varied parameters: the ambiguity check, the sorted row/col value
sets and the zero-initialized dense matrix fill.  Python collects the
distinct `(name, value)` pairs through `set()` (unspecified iteration order)
before sorting; `dedup` is one admissible refinement. -/
def double_from_elements
    (matrix_elements : List (GroupKey × List ResultRecord)) :
    Except GSError DoubleResult :=
  if matrix_elements.any (fun p => decide (1 < p.2.length)) then
    .error .ambiguousGroup
  else
    .ok { row_names := row_names_of matrix_elements
          col_names := col_names_of matrix_elements
          matrix := fill_matrix (entries_of matrix_elements)
            (row_names_of matrix_elements).length
            (col_names_of matrix_elements).length
          row_labels := (row_names_of matrix_elements).map
            (fun p => p.1 ++ "=" ++ value_str p.2)
          col_labels := (col_names_of matrix_elements).map
            (fun p => p.1 ++ "=" ++ value_str p.2) }

/-- `_grid_search_double`: duplicate-selector check, optional subset
filtering, grouping by every combination of the two varied parameters, and
the matrix-building tail. -/
def grid_search_double (grid_scores : List ResultRecord) (c1 c2 : String)
    (subset : Option Subset) (sort : Bool) : Except GSError DoubleResult :=
  if c1 = c2 then .error .duplicateParam
  else
    match double_filtered grid_scores subset sort with
    | .error e => .error e
    | .ok gs2 =>
      double_from_elements (group_by gs2 (get_params_value [c1, c2]))

/-- The slice of sklearn's `cv_results_` dict that `grid_search` reads: the
`params` list and the two parallel score arrays. -/
structure CvResults where
  params : List (List (String × Value))
  mean_test_score : List Score
  std_test_score : List Score
deriving DecidableEq, Repr

/-- Python `zip` of three lists: stops at the shortest. -/
def zip3 : List α → List β → List γ → List (α × β × γ)
  | a :: as, b :: bs, c :: cs => (a, b, c) :: zip3 as bs cs
  | _, _, _ => []

/-- `grid_scores = [gs(p, m, s) for p, m, s in zip(cv_results_['params'],
cv_results_['mean_test_score'], cv_results_['std_test_score'])]`. -/
def make_grid_scores (cv : CvResults) : List ResultRecord :=
  (zip3 cv.params cv.mean_test_score cv.std_test_score).map
    (fun t => ⟨t.1, t.2.1, t.2.2⟩)

/-- The dynamic `change` argument: `None`, a string, or a sequence of
parameter names. -/
inductive ChangeArg where
  | noneArg : ChangeArg
  | strArg : String → ChangeArg
  | listArg : List String → ChangeArg
deriving DecidableEq, Repr

/-- The chart content produced by either path. -/
inductive PlotOutput where
  | single : List SeriesData → PlotOutput
  | double : DoubleResult → PlotOutput
deriving DecidableEq, Repr

/-- The four possible routings of a `grid_search` call. -/
inductive DispatchPath where
  | rejectedNone : DispatchPath
  | singlePath : DispatchPath
  | doublePath : DispatchPath
  | rejectedArity : DispatchPath
deriving DecidableEq, Repr

/-- Which code path `grid_search` takes for a given `change` argument:
`None` is rejected up front; a string or a length-1 sequence enters
`_grid_search_single`, a length-2 sequence enters `_grid_search_double`, and
any other length is rejected with the arity error. -/
def grid_search_dispatch (change : ChangeArg) : DispatchPath :=
  match change with
  | .noneArg => .rejectedNone
  | .strArg _ => .singlePath
  | .listArg l =>
    if l.length = 1 then .singlePath
    else if l.length = 2 then .doublePath
    else .rejectedArity

/-- `grid_search`: rejects `change is None` before any processing, zips the
three `cv_results_` arrays into records, and dispatches on the shape of
`change`.  A length-1 sequence is passed to the single path as-is, where
`params.remove(change)` always rejects a non-string selector (after the
`grid_scores[0]` access, which fails first on an empty collection). -/
def grid_search (cv : CvResults) (change : ChangeArg)
    (subset : Option Subset) (sort : Bool) : Except GSError PlotOutput :=
  match change with
  | .noneArg => .error .changeNone
  | .strArg s =>
    (grid_search_single (make_grid_scores cv) s subset sort).map PlotOutput.single
  | .listArg l =>
    if l.length = 1 then
      match make_grid_scores cv with
      | [] => .error .indexError
      | _ => .error (.seqSelector l)
    else if l.length = 2 then
      (grid_search_double (make_grid_scores cv) (l.getD 0 "") (l.getD 1 "")
        subset sort).map PlotOutput.double
    else .error .arity

/-- Does a record satisfy every key/value constraint of a subset?  (The spec:
"filter records to only those whose parameter values match every key/value
pair in `subset`".) -/
def subset_matches (s : Subset) (r : ResultRecord) : Bool :=
  s.all (fun p => p.2.contains (param_value r p.1))

/-- Record of the spec scenario: `{params: {n: 1, k: 'a'}, mean: 0.5, std: 0.1}`. -/
def rec1 : ResultRecord := ⟨[("n", .vint 1), ("k", .vstr "a")], ⟨1, 2⟩, ⟨1, 10⟩⟩

/-- Record of the spec scenario: `{params: {n: 1, k: 'b'}, mean: 0.7, std: 0.05}`. -/
def rec2 : ResultRecord := ⟨[("n", .vint 1), ("k", .vstr "b")], ⟨7, 10⟩, ⟨1, 20⟩⟩

/-- Record of the spec scenario: `{params: {n: 2, k: 'a'}, mean: 0.6, std: 0.2}`. -/
def rec3 : ResultRecord := ⟨[("n", .vint 2), ("k", .vstr "a")], ⟨3, 5⟩, ⟨1, 5⟩⟩

/-- The three-record collection used by the spec's scenarios. -/
def scenario_records : List ResultRecord := [rec1, rec2, rec3]

/-- The record list a key maps to (empty when the key is absent): dict
lookup on the association list built by `group_by`. -/
def group_lookup [DecidableEq K] (groups : List (K × List α)) (k : K) :
    List α :=
  ((groups.find? (fun p => p.1 = k)).map Prod.snd).getD []


/-- A row-major `rows × cols` matrix shape. -/
def matrix_shape (rows cols : Nat) (mat : List (List Score)) : Prop :=
  mat.length = rows ∧ ∀ row ∈ mat, row.length = cols


/-! ### The spec scenario outputs -/

/-- The single-parameter scenario output: two series, "k: a" with
x = [1, 2], y = [0.5, 0.6] and "k: b" with x = [1], y = [0.7]. -/
def scenario_single_series : List SeriesData :=
  [⟨"k: a", [Value.vint 1, Value.vint 2], [⟨1, 2⟩, ⟨3, 5⟩], [⟨1, 10⟩, ⟨1, 5⟩]⟩,
   ⟨"k: b", [Value.vint 1], [⟨7, 10⟩], [⟨1, 20⟩]⟩]

/-- The two-parameter scenario output: rows n = 1, 2; cols k = a, b; matrix
[[0.5, 0.7], [0.6, 0]]. -/
def scenario_double_result : DoubleResult :=
  { row_names := [("n", Value.vint 1), ("n", Value.vint 2)]
    col_names := [("k", Value.vstr "a"), ("k", Value.vstr "b")]
    matrix := [[⟨1, 2⟩, ⟨7, 10⟩], [⟨3, 5⟩, ⟨0, 1⟩]]
    row_labels := ["n=1", "n=2"]
    col_labels := ["k=a", "k=b"] }

/-- Two records sharing the same values of both varied parameters: an
ambiguous input for the two-parameter path. -/
def double_amb_records : List ResultRecord :=
  [⟨[("n", .vint 1), ("k", .vstr "a")], ⟨1, 2⟩, ⟨0, 1⟩⟩,
   ⟨[("n", .vint 1), ("k", .vstr "a")], ⟨7, 10⟩, ⟨0, 1⟩⟩]


/-! ### Facts about the stable sort -/

theorem stable_insert_perm (le : α → α → Bool) (x : α) :
    ∀ l : List α, (stable_insert le x l).Perm (x :: l)
  | [] => List.Perm.refl _
  | y :: ys => by
    unfold stable_insert
    by_cases h : le x y = true
    · rw [if_pos h]
    · rw [if_neg h]
      exact ((stable_insert_perm le x ys).cons y).trans (List.Perm.swap x y ys)

theorem py_sorted_perm (le : α → α → Bool) :
    ∀ l : List α, (py_sorted le l).Perm l
  | [] => List.Perm.refl _
  | x :: xs =>
    (stable_insert_perm le x (py_sorted le xs)).trans
      ((py_sorted_perm le xs).cons x)

theorem mem_py_sorted (le : α → α → Bool) (l : List α) (a : α) :
    a ∈ py_sorted le l ↔ a ∈ l :=
  (py_sorted_perm le l).mem_iff

theorem pairwise_stable_insert (le : α → α → Bool)
    (htr : ∀ a b c, le a b = true → le b c = true → le a c = true)
    (hto : ∀ a b, le a b = true ∨ le b a = true)
    (x : α) (l : List α) (hl : l.Pairwise (fun a b => le a b = true)) :
    (stable_insert le x l).Pairwise (fun a b => le a b = true) := by
  induction l with
  | nil => simp [stable_insert]
  | cons y ys ih =>
    rw [List.pairwise_cons] at hl
    obtain ⟨hy, hys⟩ := hl
    unfold stable_insert
    by_cases h : le x y = true
    · rw [if_pos h, List.pairwise_cons]
      refine ⟨?_, List.pairwise_cons.mpr ⟨hy, hys⟩⟩
      intro b hb
      rcases List.mem_cons.mp hb with rfl | hb
      · exact h
      · exact htr x y b h (hy b hb)
    · rw [if_neg h, List.pairwise_cons]
      refine ⟨?_, ih hys⟩
      intro b hb
      rcases List.mem_cons.mp ((stable_insert_perm le x ys).mem_iff.mp hb) with
        rfl | hb
      · rcases hto b y with hxy | hyx
        · exact absurd hxy h
        · exact hyx
      · exact hy b hb

theorem pairwise_py_sorted (le : α → α → Bool)
    (htr : ∀ a b c, le a b = true → le b c = true → le a c = true)
    (hto : ∀ a b, le a b = true ∨ le b a = true) (l : List α) :
    (py_sorted le l).Pairwise (fun a b => le a b = true) := by
  induction l with
  | nil => simp [py_sorted]
  | cons x xs ih => exact pairwise_stable_insert le htr hto x _ ih

/-! ### The comparison functions are total preorders -/

theorem lex_le_total : ∀ a b : List Char, lex_le a b = true ∨ lex_le b a = true
  | [], _ => Or.inl rfl
  | _ :: _, [] => Or.inr rfl
  | a :: as, b :: bs => by
    by_cases h1 : a.toNat < b.toNat
    · left; simp [lex_le, h1]
    · by_cases h2 : a.toNat = b.toNat
      · rcases lex_le_total as bs with h | h
        · left; simp [lex_le, h1, h2, h]
        · right; simp [lex_le, h2, h]
      · right
        have h3 : b.toNat < a.toNat := by omega
        simp [lex_le, h3]

theorem lex_le_trans :
    ∀ a b c : List Char,
      lex_le a b = true → lex_le b c = true → lex_le a c = true
  | [], _, _ => by intro _ _; rfl
  | _ :: _, [], _ => by intro h _; simp [lex_le] at h
  | _ :: _, _ :: _, [] => by intro _ h; simp [lex_le] at h
  | a :: as, b :: bs, c :: cs => by
    intro h1 h2
    simp only [lex_le] at h1 h2 ⊢
    by_cases hab : a.toNat < b.toNat
    · by_cases hbc : b.toNat < c.toNat
      · simp [show a.toNat < c.toNat by omega]
      · by_cases hbc2 : b.toNat = c.toNat
        · simp [show a.toNat < c.toNat by omega]
        · simp [hbc, hbc2] at h2
    · by_cases hab2 : a.toNat = b.toNat
      · by_cases hbc : b.toNat < c.toNat
        · simp [show a.toNat < c.toNat by omega]
        · by_cases hbc2 : b.toNat = c.toNat
          · rw [if_neg hab, if_pos hab2] at h1
            rw [if_neg hbc, if_pos hbc2] at h2
            rw [if_neg (show ¬ a.toNat < c.toNat by omega),
              if_pos (show a.toNat = c.toNat by omega)]
            exact lex_le_trans as bs cs h1 h2
          · simp [hbc, hbc2] at h2
      · simp [hab, hab2] at h1

theorem string_le_total (a b : String) :
    string_le a b = true ∨ string_le b a = true :=
  lex_le_total a.data b.data

theorem string_le_trans (a b c : String)
    (h1 : string_le a b = true) (h2 : string_le b c = true) :
    string_le a c = true :=
  lex_le_trans a.data b.data c.data h1 h2

theorem value_leB_total (a b : Value) :
    Value.leB a b = true ∨ Value.leB b a = true := by
  cases a <;> cases b <;> simp [Value.leB]
  · omega
  · exact lex_le_total _ _

theorem value_leB_trans (a b c : Value)
    (h1 : Value.leB a b = true) (h2 : Value.leB b c = true) :
    Value.leB a c = true := by
  cases a <;> cases b <;> cases c <;>
    simp [Value.leB] at h1 h2 ⊢
  · omega
  · exact lex_le_trans _ _ _ h1 h2

theorem none_last_le_total (a b : String × Value) :
    none_last_le a b = true ∨ none_last_le b a = true := by
  obtain ⟨s1, v1⟩ := a
  obtain ⟨s2, v2⟩ := b
  cases v1 <;> cases v2 <;> simp [none_last_le, Value.leB]
  · omega
  · exact lex_le_total _ _

theorem none_last_le_trans (a b c : String × Value)
    (h1 : none_last_le a b = true) (h2 : none_last_le b c = true) :
    none_last_le a c = true := by
  obtain ⟨s1, v1⟩ := a
  obtain ⟨s2, v2⟩ := b
  obtain ⟨s3, v3⟩ := c
  cases v1 <;> cases v2 <;> cases v3 <;>
    simp [none_last_le, Value.leB] at h1 h2 ⊢
  · omega
  · exact lex_le_trans _ _ _ h1 h2

/-! ### Facts about `group_by` -/

theorem group_lookup_add_to_group [DecidableEq K] (k k2 : K) (x : α)
    (groups : List (K × List α)) :
    group_lookup (add_to_group k x groups) k2 =
      if k2 = k then group_lookup groups k ++ [x] else group_lookup groups k2 := by
  induction groups with
  | nil =>
    by_cases h : k2 = k <;>
      simp [add_to_group, group_lookup, List.find?_cons, h, Ne.symm]
  | cons p rest ih =>
    obtain ⟨k3, xs⟩ := p
    unfold add_to_group
    by_cases h3 : k3 = k
    · subst h3
      by_cases h2 : k2 = k3
      · subst h2
        simp [group_lookup, List.find?_cons]
      · simp [group_lookup, List.find?_cons, Ne.symm h2, h2]
    · rw [if_neg h3]
      by_cases h2 : k2 = k3
      · subst h2
        simp [group_lookup, List.find?_cons, h3]
      · have hfst : ∀ g : List α,
            group_lookup ((k3, g) :: rest) k2 = group_lookup rest k2 := by
          intro g
          simp [group_lookup, List.find?_cons, show ¬ (k3 = k2) from
            fun h => h2 h.symm]
        have hfst2 : ∀ g : List α,
            group_lookup ((k3, g) :: add_to_group k x rest) k2 =
              group_lookup (add_to_group k x rest) k2 := by
          intro g
          simp [group_lookup, List.find?_cons, show ¬ (k3 = k2) from
            fun h => h2 h.symm]
        rw [hfst2, ih]
        by_cases hk : k2 = k
        · rw [if_pos hk, if_pos hk]
          subst hk
          rw [hfst]
        · rw [if_neg hk, if_neg hk, hfst]

theorem group_lookup_foldl [DecidableEq K] (f : α → K) (l : List α)
    (acc : List (K × List α)) (k : K) :
    group_lookup (l.foldl (fun acc x => add_to_group (f x) x acc) acc) k =
      group_lookup acc k ++ l.filter (fun x => f x = k) := by
  induction l generalizing acc with
  | nil => simp
  | cons x xs ih =>
    rw [List.foldl_cons, ih, group_lookup_add_to_group]
    by_cases h : f x = k
    · rw [if_pos h.symm, List.filter_cons_of_pos (by simp [h]), h]
      simp
    · rw [if_neg (fun hh => h hh.symm),
        List.filter_cons_of_neg (by simp [h])]

theorem group_lookup_group_by [DecidableEq K] (f : α → K) (l : List α) (k : K) :
    group_lookup (group_by l f) k = l.filter (fun x => f x = k) := by
  unfold group_by
  rw [group_lookup_foldl]
  rfl

theorem add_to_group_keys_mem [DecidableEq K] (k : K) (x : α)
    (groups : List (K × List α)) (h : k ∈ groups.map Prod.fst) :
    (add_to_group k x groups).map Prod.fst = groups.map Prod.fst := by
  induction groups with
  | nil => simp at h
  | cons p rest ih =>
    obtain ⟨k2, xs⟩ := p
    unfold add_to_group
    by_cases h2 : k2 = k
    · rw [if_pos h2]
      simp
    · rw [if_neg h2]
      simp only [List.map_cons]
      rw [ih]
      rcases List.mem_cons.mp h with h | h
      · exact absurd h.symm h2
      · exact h

theorem add_to_group_keys_not_mem [DecidableEq K] (k : K) (x : α)
    (groups : List (K × List α)) (h : k ∉ groups.map Prod.fst) :
    (add_to_group k x groups).map Prod.fst = groups.map Prod.fst ++ [k] := by
  induction groups with
  | nil => simp [add_to_group]
  | cons p rest ih =>
    obtain ⟨k2, xs⟩ := p
    simp only [List.map_cons, List.mem_cons] at h
    push_neg at h
    unfold add_to_group
    rw [if_neg (fun hh => h.1 hh.symm)]
    simp only [List.map_cons, List.cons_append, List.cons.injEq, true_and]
    exact ih h.2

theorem mem_add_to_group_keys [DecidableEq K] (k k2 : K) (x : α)
    (groups : List (K × List α)) :
    k2 ∈ (add_to_group k x groups).map Prod.fst ↔
      k2 ∈ groups.map Prod.fst ∨ k2 = k := by
  by_cases h : k ∈ groups.map Prod.fst
  · rw [add_to_group_keys_mem k x groups h]
    constructor
    · exact Or.inl
    · rintro (hh | rfl)
      · exact hh
      · exact h
  · rw [add_to_group_keys_not_mem k x groups h]
    simp

theorem foldl_keys_nodup [DecidableEq K] (f : α → K) (l : List α)
    (acc : List (K × List α)) (h : (acc.map Prod.fst).Nodup) :
    ((l.foldl (fun acc x => add_to_group (f x) x acc) acc).map Prod.fst).Nodup := by
  induction l generalizing acc with
  | nil => exact h
  | cons x xs ih =>
    rw [List.foldl_cons]
    apply ih
    by_cases hm : f x ∈ acc.map Prod.fst
    · rw [add_to_group_keys_mem _ _ _ hm]; exact h
    · rw [add_to_group_keys_not_mem _ _ _ hm]
      simp [List.nodup_append, h, hm]

theorem group_by_keys_nodup [DecidableEq K] (f : α → K) (l : List α) :
    ((group_by l f).map Prod.fst).Nodup :=
  foldl_keys_nodup f l [] (by simp)

theorem mem_foldl_keys [DecidableEq K] (f : α → K) (l : List α)
    (acc : List (K × List α)) (k : K) :
    k ∈ ((l.foldl (fun acc x => add_to_group (f x) x acc) acc).map Prod.fst) ↔
      k ∈ acc.map Prod.fst ∨ ∃ x ∈ l, f x = k := by
  induction l generalizing acc with
  | nil => simp
  | cons x xs ih =>
    rw [List.foldl_cons, ih, mem_add_to_group_keys]
    constructor
    · rintro ((h | rfl) | ⟨x2, hx2, rfl⟩)
      · exact Or.inl h
      · exact Or.inr ⟨x, List.mem_cons_self x xs, rfl⟩
      · exact Or.inr ⟨x2, List.mem_cons_of_mem x hx2, rfl⟩
    · rintro (h | ⟨x2, hx2, rfl⟩)
      · exact Or.inl (Or.inl h)
      · rcases List.mem_cons.mp hx2 with rfl | hx2
        · exact Or.inl (Or.inr rfl)
        · exact Or.inr ⟨x2, hx2, rfl⟩

theorem mem_group_by_keys [DecidableEq K] (f : α → K) (l : List α) (k : K) :
    k ∈ (group_by l f).map Prod.fst ↔ ∃ x ∈ l, f x = k := by
  unfold group_by
  rw [mem_foldl_keys]
  simp

theorem mem_group_eq_lookup [DecidableEq K] (groups : List (K × List α))
    (k : K) (g : List α) (hnd : (groups.map Prod.fst).Nodup)
    (hm : (k, g) ∈ groups) : group_lookup groups k = g := by
  induction groups with
  | nil => simp at hm
  | cons p rest ih =>
    obtain ⟨k2, g2⟩ := p
    rcases List.mem_cons.mp hm with heq | hm2
    · obtain ⟨rfl, rfl⟩ := Prod.mk.injEq .. ▸ heq
      simp [group_lookup, List.find?_cons]
    · have hk2 : k ≠ k2 := by
        rintro rfl
        simp only [List.map_cons, List.nodup_cons] at hnd
        exact hnd.1 (List.mem_map.mpr ⟨(k, g), hm2, rfl⟩)
      simp only [List.map_cons, List.nodup_cons] at hnd
      have := ih hnd.2 hm2
      simp only [group_lookup, List.find?_cons] at this ⊢
      simpa [show ¬ (k2 = k) from fun h => hk2 h.symm] using this

theorem mem_group_by_eq_filter [DecidableEq K] (f : α → K) (l : List α)
    (k : K) (g : List α) (hm : (k, g) ∈ group_by l f) :
    g = l.filter (fun x => f x = k) := by
  rw [← group_lookup_group_by f l k]
  exact (mem_group_eq_lookup _ k g (group_by_keys_nodup f l) hm).symm

theorem add_to_group_flatten_perm [DecidableEq K] (k : K) (x : α)
    (groups : List (K × List α)) :
    ((add_to_group k x groups).map Prod.snd).flatten.Perm
      ((groups.map Prod.snd).flatten ++ [x]) := by
  induction groups with
  | nil => simp [add_to_group]
  | cons p rest ih =>
    obtain ⟨k2, xs⟩ := p
    unfold add_to_group
    by_cases h : k2 = k
    · rw [if_pos h]
      simp only [List.map_cons, List.flatten_cons, List.append_assoc]
      exact List.perm_append_comm.append_left xs
    · rw [if_neg h]
      simp only [List.map_cons, List.flatten_cons, List.append_assoc]
      exact ih.append_left xs

theorem foldl_flatten_perm [DecidableEq K] (f : α → K) (l : List α)
    (acc : List (K × List α)) :
    (((l.foldl (fun acc x => add_to_group (f x) x acc) acc).map Prod.snd).flatten).Perm
      ((acc.map Prod.snd).flatten ++ l) := by
  induction l generalizing acc with
  | nil => simp
  | cons x xs ih =>
    rw [List.foldl_cons]
    refine (ih _).trans ?_
    refine ((add_to_group_flatten_perm (f x) x acc).append_right xs).trans ?_
    rw [List.append_assoc]
    exact (List.Perm.refl _).append (List.Perm.refl _)

theorem group_by_flatten_perm [DecidableEq K] (f : α → K) (l : List α) :
    (((group_by l f).map Prod.snd).flatten).Perm l := by
  simpa using foldl_flatten_perm f l []

theorem group_by_eq_nil_iff [DecidableEq K] (f : α → K) (l : List α) :
    group_by l f = [] ↔ l = [] := by
  constructor
  · intro h
    have := group_by_flatten_perm f l
    rw [h] at this
    exact this.symm.eq_nil
  · rintro rfl
    rfl

theorem group_by_snd_ne_nil [DecidableEq K] (f : α → K) (l : List α) :
    ∀ p ∈ group_by l f, p.2 ≠ [] := by
  intro p hp
  have hk : (p.1, p.2) ∈ group_by l f := hp
  have := mem_group_by_eq_filter f l p.1 p.2 hk
  have hkey : p.1 ∈ (group_by l f).map Prod.fst :=
    List.mem_map.mpr ⟨p, hp, rfl⟩
  obtain ⟨x, hx, hfx⟩ := (mem_group_by_keys f l p.1).mp hkey
  rw [this]
  intro hnil
  have : x ∈ l.filter (fun y => f y = p.1) :=
    List.mem_filter.mpr ⟨hx, by simp [hfx]⟩
  rw [hnil] at this
  simp at this

/-! ### Miscellaneous list facts -/

theorem find?_eq_filter_head? (p : α → Bool) :
    ∀ l : List α, l.find? p = (l.filter p).head?
  | [] => rfl
  | x :: xs => by
    by_cases h : p x
    · simp [List.find?_cons, List.filter_cons, h]
    · simp only [List.find?_cons, List.filter_cons]
      rw [show p x = false by simpa using h]
      simp only [Bool.false_eq_true, if_false]
      exact find?_eq_filter_head? p xs

theorem lookup_eq_none_iff [DecidableEq K] (l : List (K × β)) (k : K) :
    l.lookup k = none ↔ k ∉ l.map Prod.fst := by
  induction l with
  | nil => simp
  | cons p rest ih =>
    obtain ⟨k2, v⟩ := p
    by_cases h : k = k2
    · subst h
      simp [List.lookup]
    · simp [List.lookup, beq_false_of_ne h, ih, h]

/-! ### Membership in the subset's combination product -/

theorem mem_mapping_to_tuple_pairs (s : Subset) (r : ResultRecord) :
    get_params_value (subset_keys s) r ∈ mapping_to_tuple_pairs s ↔
      subset_matches s r = true := by
  induction s with
  | nil => simp [mapping_to_tuple_pairs, get_params_value, subset_keys,
      subset_matches]
  | cons p rest ih =>
    obtain ⟨k, vs⟩ := p
    simp only [mapping_to_tuple_pairs, subset_keys, List.map_cons, List.map_map,
      get_params_value, List.mem_flatMap, List.mem_map, subset_matches,
      List.all_cons, Bool.and_eq_true] at ih ⊢
    constructor
    · rintro ⟨q, ⟨v, hv, rfl⟩, t, ht, heq⟩
      simp only [List.cons.injEq, Prod.mk.injEq] at heq
      obtain ⟨⟨-, hveq⟩, hteq⟩ := heq
      refine ⟨?_, ih.mp (hteq ▸ ht)⟩
      rw [List.elem_iff]
      exact hveq ▸ hv
    · rintro ⟨hc, hrest⟩
      exact ⟨(k, param_value r k),
        ⟨param_value r k, List.elem_iff.mp hc, rfl⟩,
        (rest.map Prod.fst).map (fun p => (p, param_value r p)),
        by simpa [List.map_map] using ih.mpr hrest, by simp⟩

/-! ### Facts about the heatmap matrix fill -/

theorem getD_set_eq_of_lt (l : List β) (i : Nat) (a d : β) (h : i < l.length) :
    (l.set i a).getD i d = a := by
  rw [List.getD_eq_getElem?_getD, List.getElem?_set, if_pos rfl, if_pos h]
  rfl

theorem getD_set_ne_idx (l : List β) (i i2 : Nat) (a d : β) (h : i ≠ i2) :
    (l.set i a).getD i2 d = l.getD i2 d := by
  rw [List.getD_eq_getElem?_getD, List.getElem?_set, if_neg h,
    ← List.getD_eq_getElem?_getD]

theorem get_cell_set_cell_eq (mat : List (List Score)) (i j : Nat) (v : Score)
    (hi : i < mat.length) (hj : j < (mat.getD i []).length) :
    get_cell (set_cell mat i j v) i j = v := by
  unfold get_cell set_cell
  rw [getD_set_eq_of_lt _ _ _ _ hi, getD_set_eq_of_lt _ _ _ _ hj]

theorem get_cell_set_cell_ne (mat : List (List Score)) (i j i2 j2 : Nat)
    (v : Score) (h : i ≠ i2 ∨ j ≠ j2) :
    get_cell (set_cell mat i j v) i2 j2 = get_cell mat i2 j2 := by
  unfold get_cell set_cell
  by_cases hii : i = i2
  · subst hii
    rcases h with h | h
    · exact absurd rfl h
    · by_cases hlen : i < mat.length
      · rw [getD_set_eq_of_lt _ _ _ _ hlen, getD_set_ne_idx _ _ _ _ _ h]
      · rw [List.set_eq_of_length_le (by omega)]
  · rw [getD_set_ne_idx _ _ _ _ _ hii]

theorem set_cell_shape (rows cols : Nat) (mat : List (List Score))
    (i j : Nat) (v : Score) (h : matrix_shape rows cols mat) :
    matrix_shape rows cols (set_cell mat i j v) := by
  by_cases hi : i < mat.length
  · obtain ⟨hlen, hrows⟩ := h
    constructor
    · rw [set_cell, List.length_set, hlen]
    · intro row hrow
      rcases List.mem_or_eq_of_mem_set hrow with hmem | rfl
      · exact hrows row hmem
      · rw [List.length_set]
        refine hrows _ ?_
        rw [List.getD_eq_getElem mat _ hi]
        exact List.getElem_mem hi
  · rw [set_cell, List.set_eq_of_length_le (by omega)]
    exact h

theorem zeros_shape (rows cols : Nat) :
    matrix_shape rows cols (List.replicate rows (List.replicate cols Score.zero)) := by
  constructor
  · simp
  · intro row hrow
    rw [List.eq_of_mem_replicate hrow]
    simp

theorem get_cell_zeros (rows cols i j : Nat) :
    get_cell (List.replicate rows (List.replicate cols Score.zero)) i j =
      Score.zero := by
  unfold get_cell
  by_cases hi : i < rows
  · have hrow : (List.replicate rows (List.replicate cols Score.zero)).getD i [] =
        List.replicate cols Score.zero := by
      rw [List.getD_eq_getElem _ _ (by simpa using hi), List.getElem_replicate]
    rw [hrow]
    by_cases hj : j < cols
    · rw [List.getD_eq_getElem _ _ (by simpa using hj), List.getElem_replicate]
    · rw [List.getD_eq_getElem?_getD, List.getElem?_eq_none (by simpa using hj)]
      rfl
  · have hrow : (List.replicate rows (List.replicate cols Score.zero)).getD i [] =
        ([] : List Score) := by
      rw [List.getD_eq_getElem?_getD, List.getElem?_eq_none (by simpa using hi)]
      rfl
    rw [hrow]
    rfl

theorem foldl_set_cell_shape (rows cols : Nat)
    (entries : List ((Nat × Nat) × Score)) (mat : List (List Score))
    (h : matrix_shape rows cols mat) :
    matrix_shape rows cols
      (entries.foldl (fun acc e => set_cell acc e.1.2 e.1.1 e.2) mat) := by
  induction entries generalizing mat with
  | nil => exact h
  | cons e es ih =>
    rw [List.foldl_cons]
    exact ih _ (set_cell_shape rows cols mat e.1.2 e.1.1 e.2 h)

theorem get_cell_foldl_frame (entries : List ((Nat × Nat) × Score))
    (mat : List (List Score)) (i j : Nat)
    (h : ∀ e ∈ entries, e.1 ≠ (j, i)) :
    get_cell (entries.foldl (fun acc e => set_cell acc e.1.2 e.1.1 e.2) mat) i j =
      get_cell mat i j := by
  induction entries generalizing mat with
  | nil => rfl
  | cons e es ih =>
    rw [List.foldl_cons]
    rw [ih _ (fun e2 he2 => h e2 (List.mem_cons_of_mem e he2))]
    apply get_cell_set_cell_ne
    have := h e (List.mem_cons_self e es)
    by_cases h1 : e.1.2 = i
    · by_cases h2 : e.1.1 = j
      · exact absurd (Prod.ext h2 h1) this
      · exact Or.inr h2
    · exact Or.inl h1

theorem get_cell_foldl_set_cell (rows cols : Nat)
    (entries : List ((Nat × Nat) × Score)) (mat : List (List Score))
    (hshape : matrix_shape rows cols mat)
    (hin : ∀ e ∈ entries, e.1.1 < cols ∧ e.1.2 < rows)
    (hnd : (entries.map Prod.fst).Nodup) (i j : Nat) :
    get_cell (entries.foldl (fun acc e => set_cell acc e.1.2 e.1.1 e.2) mat) i j =
      match entries.find? (fun e => e.1 = (j, i)) with
      | some e => e.2
      | none => get_cell mat i j := by
  induction entries generalizing mat with
  | nil => rfl
  | cons e es ih =>
    rw [List.foldl_cons]
    rw [List.map_cons, List.nodup_cons] at hnd
    by_cases he : e.1 = (j, i)
    · rw [List.find?_cons_of_pos _ (by simpa using he)]
      have hfr : ∀ e2 ∈ es, e2.1 ≠ (j, i) := by
        intro e2 he2 hcontra
        exact hnd.1 (he ▸ hcontra ▸ List.mem_map.mpr ⟨e2, he2, rfl⟩)
      rw [get_cell_foldl_frame es _ i j hfr]
      obtain ⟨hj, hi⟩ := hin e (List.mem_cons_self e es)
      have hje : e.1.1 = j := by rw [he]
      have hie : e.1.2 = i := by rw [he]
      rw [← hje, ← hie]
      apply get_cell_set_cell_eq
      · rw [hshape.1]; exact hi
      · have : (mat.getD e.1.2 []).length = cols := by
          apply hshape.2
          rw [List.getD_eq_getElem mat _ (by rw [hshape.1]; exact hi)]
          exact List.getElem_mem _
        rw [this]; exact hj
    · rw [List.find?_cons_of_neg _ (by simpa using he)]
      rw [ih _ (set_cell_shape rows cols mat e.1.2 e.1.1 e.2 hshape)
        (fun e2 he2 => hin e2 (List.mem_cons_of_mem e he2)) hnd.2]
      cases hfind : es.find? (fun e2 => e2.1 = (j, i)) with
      | some e2 => rfl
      | none =>
        apply get_cell_set_cell_ne
        by_cases h1 : e.1.2 = i
        · by_cases h2 : e.1.1 = j
          · exact absurd (Prod.ext h2 h1) he
          · exact Or.inr h2
        · exact Or.inl h1

theorem get_cell_fill_matrix (rows cols : Nat)
    (entries : List ((Nat × Nat) × Score))
    (hin : ∀ e ∈ entries, e.1.1 < cols ∧ e.1.2 < rows)
    (hnd : (entries.map Prod.fst).Nodup) (i j : Nat) :
    get_cell (fill_matrix entries rows cols) i j =
      match entries.find? (fun e => e.1 = (j, i)) with
      | some e => e.2
      | none => Score.zero := by
  unfold fill_matrix
  rw [get_cell_foldl_set_cell rows cols entries _ (zeros_shape rows cols) hin hnd]
  cases entries.find? (fun e => e.1 = (j, i)) with
  | some e => rfl
  | none => exact get_cell_zeros rows cols i j

theorem fill_matrix_shape (rows cols : Nat)
    (entries : List ((Nat × Nat) × Score)) :
    matrix_shape rows cols (fill_matrix entries rows cols) :=
  foldl_set_cell_shape rows cols entries _ (zeros_shape rows cols)

/-! ### Facts about `sorted_map_iter` -/

theorem sorted_map_iter_perm (groups : List (GroupKey × α)) (sort : Bool) :
    (sorted_map_iter groups sort).Perm groups := by
  unfold sorted_map_iter
  cases sort
  · exact List.Perm.refl _
  · exact py_sorted_perm _ groups

theorem mem_sorted_map_iter (groups : List (GroupKey × α)) (sort : Bool)
    (p : GroupKey × α) : p ∈ sorted_map_iter groups sort ↔ p ∈ groups :=
  (sorted_map_iter_perm groups sort).mem_iff

/-- Dict lookup by key-equality on an association list whose keys are
pairwise distinct finds a member entry. -/
theorem find?_eq_of_mem_of_nodup_keys [DecidableEq K] (l : List (K × β))
    (hnd : (l.map Prod.fst).Nodup) (e : K × β) (he : e ∈ l) :
    l.find? (fun x => x.1 = e.1) = some e := by
  induction l with
  | nil => simp at he
  | cons p rest ih =>
    rw [List.map_cons, List.nodup_cons] at hnd
    rcases List.mem_cons.mp he with rfl | he2
    · rw [List.find?_cons_of_pos _ (by simp)]
    · have hne : p.1 ≠ e.1 := by
        intro hcontra
        exact hnd.1 (hcontra ▸ List.mem_map.mpr ⟨e, he2, rfl⟩)
      rw [List.find?_cons_of_neg _ (by simpa using hne)]
      exact ih hnd.2 he2

/-! ### The claims -/

/-- C8: every two-parameter call whose two selectors are equal is rejected
with the duplicate-parameter error (`len(set(change)) == 1`) before any
grouping or filtering; in particular changeParams = ('n','n') on the
scenario records is rejected. -/
theorem claim_C8_duplicate_selector :
    (∀ (grid_scores : List ResultRecord) (c : String) (subset : Option Subset)
      (sort : Bool),
      grid_search_double grid_scores c c subset sort =
        .error .duplicateParam) ∧
    grid_search_double scenario_records "n" "n" none true =
      .error .duplicateParam := by
  constructor
  · intro grid_scores c subset sort
    unfold grid_search_double
    rw [if_pos rfl]
  · decide

theorem zip3_length :
    ∀ (a : List α) (b : List β) (c : List γ),
      (zip3 a b c).length = min a.length (min b.length c.length)
  | [], _, _ => by simp [zip3]
  | _ :: _, [], _ => by simp [zip3]
  | _ :: _, _ :: _, [] => by simp [zip3]
  | x :: xs, y :: ys, z :: zs => by
    simp only [zip3, List.length_cons, zip3_length xs ys zs]
    omega

/-- C10: the number of ResultRecords built by `grid_search` equals the
minimum of the lengths of `cv_results_['params']`, `['mean_test_score']`
and `['std_test_score']` — `zip` stops at the shortest array, so surplus
entries of a longer array are silently dropped (`make_grid_scores` is total
and raises no length-mismatch error). -/
theorem claim_C10_zip_truncates (cv : CvResults) :
    (make_grid_scores cv).length =
      min cv.params.length
        (min cv.mean_test_score.length cv.std_test_score.length) := by
  unfold make_grid_scores
  rw [List.length_map, zip3_length]

/-- C7: `change = None` is rejected before any processing; a string or a
length-1 sequence dispatches to the single-parameter path, a length-2
sequence dispatches to the two-parameter path, and any other sequence
length is rejected with the arity error. -/
theorem claim_C7_dispatch :
    (∀ (cv : CvResults) (subset : Option Subset) (sort : Bool),
      grid_search cv .noneArg subset sort = .error .changeNone) ∧
    (∀ s, grid_search_dispatch (.strArg s) = .singlePath) ∧
    (∀ l, l.length = 1 → grid_search_dispatch (.listArg l) = .singlePath) ∧
    (∀ l, l.length = 2 → grid_search_dispatch (.listArg l) = .doublePath) ∧
    (∀ (cv : CvResults) (s : String) (subset : Option Subset) (sort : Bool),
      grid_search cv (.strArg s) subset sort =
        (grid_search_single (make_grid_scores cv) s subset sort).map
          PlotOutput.single) ∧
    (∀ (cv : CvResults) (l : List String) (subset : Option Subset)
      (sort : Bool), l.length = 2 →
      grid_search cv (.listArg l) subset sort =
        (grid_search_double (make_grid_scores cv) (l.getD 0 "") (l.getD 1 "")
          subset sort).map PlotOutput.double) ∧
    (∀ (cv : CvResults) (l : List String) (subset : Option Subset)
      (sort : Bool), l.length ≠ 1 → l.length ≠ 2 →
      grid_search cv (.listArg l) subset sort = .error .arity) := by
  refine ⟨fun cv subset sort => rfl, fun s => rfl, ?_, ?_,
    fun cv s subset sort => rfl, ?_, ?_⟩
  · intro l h
    simp only [grid_search_dispatch]
    rw [if_pos h]
  · intro l h
    simp only [grid_search_dispatch]
    rw [if_neg (by omega), if_pos h]
  · intro cv l subset sort h
    simp only [grid_search]
    rw [if_neg (by omega), if_pos h]
  · intro cv l subset sort h1 h2
    simp only [grid_search]
    rw [if_neg h1, if_neg h2]

/-- Witness for C7 at concrete inputs. -/
theorem claim_C7_dispatch_witness :
    grid_search_dispatch (.listArg ["n"]) = .singlePath ∧
    grid_search_dispatch (.listArg ["n", "k"]) = .doublePath ∧
    grid_search ⟨[], [], []⟩ (.listArg ["a", "b", "c"]) none true =
      .error .arity :=
  ⟨claim_C7_dispatch.2.2.1 ["n"] (by decide),
   claim_C7_dispatch.2.2.2.1 ["n", "k"] (by decide),
   claim_C7_dispatch.2.2.2.2.2.2 ⟨[], [], []⟩ ["a", "b", "c"] none true
     (by decide) (by decide)⟩

theorem single_groups_cons_valid (g0 : ResultRecord) (rest : List ResultRecord)
    (change : String) (subset : Option Subset) (sort : Bool)
    (h : change ∈ (g0.parameters.map Prod.fst).dedup) :
    single_groups (g0 :: rest) change subset sort = .error .emptySubset ∨
    ∃ G, single_groups (g0 :: rest) change subset sort = .ok G := by
  cases subset with
  | none =>
    refine Or.inr ⟨group_by (g0 :: rest)
      (get_params_value (non_varied_params g0 change)), ?_⟩
    simp only [single_groups]
    rw [if_pos h]
  | some s =>
    simp only [single_groups]
    rw [if_pos h]
    by_cases hs : s.isEmpty
    · rw [if_pos hs]
      exact Or.inr ⟨_, rfl⟩
    · rw [if_neg hs]
      by_cases hg : (group_by
          (flatten_list ((subset_filter (g0 :: rest) s sort).map Prod.snd))
          (get_params_value (non_varied_params g0 change))).isEmpty
      · rw [if_pos hg]
        exact Or.inl rfl
      · rw [if_neg hg]
        exact Or.inr ⟨_, rfl⟩

/-- C6: in the single-parameter path a change parameter absent from every
record's parameter mapping is rejected with the invalid-parameter error
before any plotting (the code checks membership in the first record's key
set, which such a parameter fails), and a change parameter present in every
record's mapping never produces that error. -/
theorem claim_C6_invalid_param (g0 : ResultRecord) (rest : List ResultRecord)
    (change : String) (subset : Option Subset) (sort : Bool) :
    ((∀ r ∈ g0 :: rest, r.parameters.lookup change = none) →
      grid_search_single (g0 :: rest) change subset sort =
        .error (.invalidParam change)) ∧
    ((∀ r ∈ g0 :: rest, change ∈ r.parameters.map Prod.fst) →
      grid_search_single (g0 :: rest) change subset sort ≠
        .error (.invalidParam change)) := by
  constructor
  · intro h
    have h0 : change ∉ (g0.parameters.map Prod.fst).dedup := by
      rw [List.mem_dedup]
      exact (lookup_eq_none_iff g0.parameters change).mp
        (h g0 (List.mem_cons_self g0 rest))
    have hsg : single_groups (g0 :: rest) change subset sort =
        .error (.invalidParam change) := by
      simp only [single_groups]
      rw [if_neg h0]
    unfold grid_search_single
    rw [hsg]
  · intro h
    have h0 : change ∈ (g0.parameters.map Prod.fst).dedup :=
      List.mem_dedup.mpr (h g0 (List.mem_cons_self g0 rest))
    rcases single_groups_cons_valid g0 rest change subset sort h0 with
      hsg | ⟨G, hsg⟩
    · unfold grid_search_single
      rw [hsg]
      simp
    · unfold grid_search_single
      rw [hsg]
      simp

/-- Witness for C6: 'q' is not a parameter of any scenario record and is
rejected; 'n' is a parameter of every scenario record and the call does not
produce the invalid-parameter error. -/
theorem claim_C6_invalid_param_witness :
    grid_search_single scenario_records "q" none true =
      .error (.invalidParam "q") ∧
    grid_search_single scenario_records "n" none true ≠
      .error (.invalidParam "n") :=
  ⟨(claim_C6_invalid_param rec1 [rec2, rec3] "q" none true).1 (by decide),
   (claim_C6_invalid_param rec1 [rec2, rec3] "n" none true).2 (by decide)⟩

/-- Keys of the groups built from the subset's own keys are projections of
records, so when no record satisfies the subset every group is filtered
away. -/
theorem subset_filter_eq_nil (gs : List ResultRecord) (s : Subset)
    (sort : Bool) (h : ∀ r ∈ gs, subset_matches s r = false) :
    subset_filter gs s sort = [] := by
  unfold subset_filter
  rw [List.filter_eq_nil_iff]
  intro p hp
  have hpg : p ∈ group_by gs (get_params_value (subset_keys s)) :=
    (mem_sorted_map_iter _ sort p).mp hp
  have hkey : p.1 ∈ (group_by gs (get_params_value (subset_keys s))).map
      Prod.fst := List.mem_map.mpr ⟨p, hpg, rfl⟩
  obtain ⟨r, hr, hproj⟩ := (mem_group_by_keys _ gs p.1).mp hkey
  intro hcontra
  have hmem : p.1 ∈ mapping_to_tuple_pairs s := List.elem_iff.mp hcontra
  rw [← hproj] at hmem
  have htrue := (mem_mapping_to_tuple_pairs s r).mp hmem
  rw [h r hr] at htrue
  exact Bool.false_ne_true htrue

/-- C9: in both paths a caller-supplied subset that matches zero records is
rejected with the empty-subset error ("Your subset didn't match any data
verify that the values are correct.") and no chart content is produced. -/
theorem claim_C9_empty_subset (g0 : ResultRecord) (rest : List ResultRecord)
    (change c1 c2 : String) (s : Subset) (sort : Bool) :
    (change ∈ g0.parameters.map Prod.fst → s ≠ [] →
      (∀ r ∈ g0 :: rest, subset_matches s r = false) →
      grid_search_single (g0 :: rest) change (some s) sort =
        .error .emptySubset) ∧
    (c1 ≠ c2 → (∀ r ∈ g0 :: rest, subset_matches s r = false) →
      grid_search_double (g0 :: rest) c1 c2 (some s) sort =
        .error .emptySubset) := by
  constructor
  · intro hchange hs h
    have h0 : change ∈ (g0.parameters.map Prod.fst).dedup :=
      List.mem_dedup.mpr hchange
    have hnil : subset_filter (g0 :: rest) s sort = [] :=
      subset_filter_eq_nil _ s sort h
    have hsg : single_groups (g0 :: rest) change (some s) sort =
        .error .emptySubset := by
      simp only [single_groups]
      rw [if_pos h0, if_neg (by simpa [List.isEmpty_iff] using hs), hnil]
      rfl
    unfold grid_search_single
    rw [hsg]
  · intro hne h
    have hnil : subset_filter (g0 :: rest) s sort = [] :=
      subset_filter_eq_nil _ s sort h
    have hdf : double_filtered (g0 :: rest) (some s) sort =
        .error .emptySubset := by
      simp only [double_filtered]
      rw [hnil]
      rfl
    unfold grid_search_double
    rw [if_neg hne, hdf]

/-- Witness for C9: subset {'k': ['z']} matches no scenario record and is
rejected by both paths. -/
theorem claim_C9_empty_subset_witness :
    grid_search_single scenario_records "n"
      (some [("k", [Value.vstr "z"])]) true = .error .emptySubset ∧
    grid_search_double scenario_records "n" "k"
      (some [("k", [Value.vstr "z"])]) true = .error .emptySubset :=
  ⟨(claim_C9_empty_subset rec1 [rec2, rec3] "n" "n" "k"
      [("k", [Value.vstr "z"])] true).1 (by decide) (by decide) (by decide),
   (claim_C9_empty_subset rec1 [rec2, rec3] "n" "n" "k"
      [("k", [Value.vstr "z"])] true).2 (by decide) (by decide)⟩

/-- C4: whenever the single path with sort = true succeeds, the series are
emitted in non-decreasing order of their label under Python's string
comparison.  (Modelled from the spec: `_sorted_map_iter` orders groups
"alphabetically by label".) -/
theorem claim_C4_sorted_labels (gs : List ResultRecord) (change : String)
    (subset : Option Subset) (series : List SeriesData)
    (h : grid_search_single gs change subset true = .ok series) :
    (series.map SeriesData.label).Pairwise
      (fun a b => string_le a b = true) := by
  unfold grid_search_single at h
  cases hg : single_groups gs change subset true with
  | error e => rw [hg] at h; exact absurd h (by simp)
  | ok G =>
    rw [hg] at h
    have hseries : series = (sorted_map_iter G true).map (fun p =>
        ({ label := label_of p.1
           x := p.2.map (fun r => param_value r change)
           y := p.2.map (fun r => r.mean_validation_score)
           stds := p.2.map (fun r => r.std_test_score) } : SeriesData)) := by
      simpa using h.symm
    rw [hseries, List.map_map]
    have hpw : (py_sorted
        (fun a b : GroupKey × List ResultRecord =>
          string_le (label_of a.1) (label_of b.1)) G).Pairwise
        (fun a b => string_le (label_of a.1) (label_of b.1) = true) :=
      pairwise_py_sorted
        (fun a b : GroupKey × List ResultRecord =>
          string_le (label_of a.1) (label_of b.1))
        (fun a b c hab hbc => string_le_trans _ _ _ hab hbc)
        (fun a b => string_le_total _ _) G
    have : sorted_map_iter G true = py_sorted
        (fun a b : GroupKey × List ResultRecord =>
          string_le (label_of a.1) (label_of b.1)) G := rfl
    rw [this]
    exact hpw.map _ (fun a b hab => hab)

/-- Witness for C4 at the spec scenario: the emitted labels are
["k: a", "k: b"], non-decreasing in the string order. -/
theorem claim_C4_sorted_labels_witness :
    (scenario_single_series.map SeriesData.label).Pairwise
      (fun a b => string_le a b = true) :=
  claim_C4_sorted_labels scenario_records "n" none scenario_single_series
    (by decide)

theorem grid_search_double_ok_reduce (gs : List ResultRecord) (c1 c2 : String)
    (subset : Option Subset) (sort : Bool) (gs2 : List ResultRecord)
    (hne : c1 ≠ c2) (hf : double_filtered gs subset sort = .ok gs2) :
    grid_search_double gs c1 c2 subset sort =
      double_from_elements (group_by gs2 (get_params_value [c1, c2])) := by
  unfold grid_search_double
  rw [if_neg hne, hf]

/-- C3: after subset filtering, the two-parameter path raises the
ambiguous-group error ("More than one result matched your criteria. Make
sure you specify parameters using change and subset so only one group
matches.") exactly when some (row-value, col-value) pair of the two varied
parameters has more than one record. -/
theorem claim_C3_ambiguity (gs : List ResultRecord) (c1 c2 : String)
    (subset : Option Subset) (sort : Bool) (gs2 : List ResultRecord)
    (hne : c1 ≠ c2) (hf : double_filtered gs subset sort = .ok gs2) :
    grid_search_double gs c1 c2 subset sort = .error .ambiguousGroup ↔
      ∃ p ∈ group_by gs2 (get_params_value [c1, c2]), 1 < p.2.length := by
  rw [grid_search_double_ok_reduce gs c1 c2 subset sort gs2 hne hf]
  unfold double_from_elements
  by_cases hany : (group_by gs2 (get_params_value [c1, c2])).any
      (fun p => decide (1 < p.2.length)) = true
  · rw [if_pos hany]
    constructor
    · intro _
      simpa using List.any_eq_true.mp hany
    · intro _
      rfl
  · rw [if_neg hany]
    constructor
    · intro hcontra
      exact Except.noConfusion hcontra
    · intro hex
      exact absurd (List.any_eq_true.mpr (by simpa using hex)) hany

/-- Witness for C3: two records sharing (n=1, k='a') are rejected as
ambiguous; the scenario records (unique pairs) are not. -/
theorem claim_C3_ambiguity_witness :
    grid_search_double double_amb_records "n" "k" none true =
      .error .ambiguousGroup ∧
    ¬ grid_search_double scenario_records "n" "k" none true =
      .error .ambiguousGroup :=
  ⟨(claim_C3_ambiguity double_amb_records "n" "k" none true double_amb_records
      (by decide) rfl).mpr (by decide),
   fun hc => absurd ((claim_C3_ambiguity scenario_records "n" "k" none true
      scenario_records (by decide) rfl).mp hc) (by decide)⟩

/-- C1: with no subset and a change parameter present in the records, the
single path groups records by the full value-tuple of the non-varied
parameters and emits one series per group whose x values are the
change-parameter values and y values the mean scores of the group's
records; on the spec scenario this yields exactly the two series
"k: a" (x = [1, 2], y = [0.5, 0.6]) and "k: b" (x = [1], y = [0.7]). -/
theorem claim_C1_single_grouping (g0 : ResultRecord)
    (rest : List ResultRecord) (change : String) (sort : Bool)
    (hchange : change ∈ g0.parameters.map Prod.fst) :
    (∃ series,
      grid_search_single (g0 :: rest) change none sort = .ok series ∧
      series.length = (group_by (g0 :: rest)
        (get_params_value (non_varied_params g0 change))).length ∧
      ∀ sd ∈ series, ∃ k,
        sd.label = label_of k ∧
        sd.x = ((g0 :: rest).filter (fun r =>
            get_params_value (non_varied_params g0 change) r = k)).map
          (fun r => param_value r change) ∧
        sd.y = ((g0 :: rest).filter (fun r =>
            get_params_value (non_varied_params g0 change) r = k)).map
          (fun r => r.mean_validation_score)) ∧
    grid_search_single scenario_records "n" none true =
      .ok scenario_single_series := by
  constructor
  · have hsg : single_groups (g0 :: rest) change none sort =
        .ok (group_by (g0 :: rest)
          (get_params_value (non_varied_params g0 change))) := by
      simp only [single_groups]
      rw [if_pos (List.mem_dedup.mpr hchange)]
    refine ⟨(sorted_map_iter (group_by (g0 :: rest)
        (get_params_value (non_varied_params g0 change))) sort).map (fun p =>
        { label := label_of p.1
          x := p.2.map (fun r => param_value r change)
          y := p.2.map (fun r => r.mean_validation_score)
          stds := p.2.map (fun r => r.std_test_score) }), ?_, ?_, ?_⟩
    · unfold grid_search_single
      rw [hsg]
    · rw [List.length_map, (sorted_map_iter_perm _ sort).length_eq]
    · intro sd hsd
      obtain ⟨p, hp, rfl⟩ := List.mem_map.mp hsd
      have hpG : p ∈ group_by (g0 :: rest)
          (get_params_value (non_varied_params g0 change)) :=
        (mem_sorted_map_iter _ sort p).mp hp
      refine ⟨p.1, rfl, ?_, ?_⟩
      · rw [← mem_group_by_eq_filter _ _ p.1 p.2 hpG]
      · rw [← mem_group_by_eq_filter _ _ p.1 p.2 hpG]
  · decide

/-- Witness for C1 at the spec scenario. -/
theorem claim_C1_single_grouping_witness :
    rec1.parameters.map Prod.fst = ["n", "k"] ∧
    (∃ series,
      grid_search_single (rec1 :: [rec2, rec3]) "n" none true = .ok series ∧
      series.length = (group_by (rec1 :: [rec2, rec3])
        (get_params_value (non_varied_params rec1 "n"))).length ∧
      ∀ sd ∈ series, ∃ k,
        sd.label = label_of k ∧
        sd.x = ((rec1 :: [rec2, rec3]).filter (fun r =>
            get_params_value (non_varied_params rec1 "n") r = k)).map
          (fun r => param_value r "n") ∧
        sd.y = ((rec1 :: [rec2, rec3]).filter (fun r =>
            get_params_value (non_varied_params rec1 "n") r = k)).map
          (fun r => r.mean_validation_score)) :=
  ⟨by decide,
   (claim_C1_single_grouping rec1 [rec2, rec3] "n" true (by decide)).1⟩

/-- When every record satisfies the subset, the filtering comprehension
keeps every group. -/
theorem subset_filter_eq_of_all_match (gs : List ResultRecord) (s : Subset)
    (sort : Bool) (h : ∀ r ∈ gs, subset_matches s r = true) :
    subset_filter gs s sort =
      sorted_map_iter (group_by gs (get_params_value (subset_keys s))) sort := by
  unfold subset_filter
  rw [List.filter_eq_self]
  intro p hp
  have hpg := (mem_sorted_map_iter _ sort p).mp hp
  have hkey : p.1 ∈ (group_by gs (get_params_value (subset_keys s))).map
      Prod.fst := List.mem_map.mpr ⟨p, hpg, rfl⟩
  obtain ⟨r, hr, hproj⟩ := (mem_group_by_keys _ gs p.1).mp hkey
  rw [← hproj]
  exact List.elem_iff.mpr ((mem_mapping_to_tuple_pairs s r).mpr (h r hr))

/-- When every record satisfies the subset, regrouping and flattening is a
permutation of the original records. -/
theorem subset_filter_flatten_perm (gs : List ResultRecord) (s : Subset)
    (sort : Bool) (h : ∀ r ∈ gs, subset_matches s r = true) :
    (flatten_list ((subset_filter gs s sort).map Prod.snd)).Perm gs := by
  rw [subset_filter_eq_of_all_match gs s sort h]
  unfold flatten_list
  refine (List.Perm.flatten ((sorted_map_iter_perm _ sort).map Prod.snd)).trans ?_
  exact group_by_flatten_perm _ gs

/-- C5: with a subset that matches every record, the single path computes
the same grouping as with no subset — the same set of group keys, and per
key the same records (as a permutation; the intermediate regrouping by the
subset's keys can reorder records across subset-groups). -/
theorem claim_C5_subset_roundtrip (g0 : ResultRecord)
    (rest : List ResultRecord) (change : String) (s : Subset) (sort : Bool)
    (hchange : change ∈ g0.parameters.map Prod.fst)
    (hs : s ≠ [])
    (hmatch : ∀ r ∈ g0 :: rest, subset_matches s r = true) :
    ∃ G1 G2,
      single_groups (g0 :: rest) change none sort = .ok G1 ∧
      single_groups (g0 :: rest) change (some s) sort = .ok G2 ∧
      (∀ k, k ∈ G1.map Prod.fst ↔ k ∈ G2.map Prod.fst) ∧
      ∀ k, (group_lookup G2 k).Perm (group_lookup G1 k) := by
  have hperm : (flatten_list ((subset_filter (g0 :: rest) s sort).map
      Prod.snd)).Perm (g0 :: rest) :=
    subset_filter_flatten_perm (g0 :: rest) s sort hmatch
  have hne2 : flatten_list ((subset_filter (g0 :: rest) s sort).map
      Prod.snd) ≠ [] := by
    intro hnil
    rw [hnil] at hperm
    exact List.cons_ne_nil g0 rest hperm.symm.eq_nil
  refine ⟨group_by (g0 :: rest)
      (get_params_value (non_varied_params g0 change)),
    group_by (flatten_list ((subset_filter (g0 :: rest) s sort).map Prod.snd))
      (get_params_value (non_varied_params g0 change)), ?_, ?_, ?_, ?_⟩
  · simp only [single_groups]
    rw [if_pos (List.mem_dedup.mpr hchange)]
  · simp only [single_groups]
    rw [if_pos (List.mem_dedup.mpr hchange),
      if_neg (by simpa [List.isEmpty_iff] using hs),
      if_neg (by simp [List.isEmpty_iff, group_by_eq_nil_iff, hne2])]
  · intro k
    rw [mem_group_by_keys, mem_group_by_keys]
    constructor
    · rintro ⟨r, hr, rfl⟩
      exact ⟨r, hperm.mem_iff.mpr hr, rfl⟩
    · rintro ⟨r, hr, rfl⟩
      exact ⟨r, hperm.mem_iff.mp hr, rfl⟩
  · intro k
    rw [group_lookup_group_by, group_lookup_group_by]
    exact hperm.filter _

/-- Witness for C5 at the spec scenario, with a subset admitting every
observed value of k and n. -/
theorem claim_C5_subset_roundtrip_witness :
    ∃ G1 G2,
      single_groups (rec1 :: [rec2, rec3]) "n" none true = .ok G1 ∧
      single_groups (rec1 :: [rec2, rec3]) "n"
        (some [("k", [Value.vstr "a", Value.vstr "b"])]) true = .ok G2 ∧
      (∀ k, k ∈ G1.map Prod.fst ↔ k ∈ G2.map Prod.fst) ∧
      ∀ k, (group_lookup G2 k).Perm (group_lookup G1 k) :=
  claim_C5_subset_roundtrip rec1 [rec2, rec3] "n"
    [("k", [Value.vstr "a", Value.vstr "b"])] true
    (by decide) (by decide) (by decide)

/-! ### Facts about `index_of` -/

theorem index_of_lt_length [DecidableEq γ] (a : γ) :
    ∀ l : List γ, a ∈ l → index_of a l < l.length
  | [], h => absurd h (List.not_mem_nil a)
  | b :: l, h => by
    unfold index_of
    by_cases hb : b = a
    · rw [if_pos hb]
      simp
    · rw [if_neg hb]
      have : a ∈ l := by
        rcases List.mem_cons.mp h with rfl | hmem
        · exact absurd rfl hb
        · exact hmem
      simpa using index_of_lt_length a l this

theorem getD_index_of [DecidableEq γ] (a : γ) :
    ∀ (l : List γ) (d : γ), a ∈ l → l.getD (index_of a l) d = a
  | [], _, h => absurd h (List.not_mem_nil a)
  | b :: l, d, h => by
    unfold index_of
    by_cases hb : b = a
    · rw [if_pos hb]
      exact hb
    · rw [if_neg hb, List.getD_cons_succ]
      have : a ∈ l := by
        rcases List.mem_cons.mp h with rfl | hmem
        · exact absurd rfl hb
        · exact hmem
      exact getD_index_of a l d this

theorem index_of_getD [DecidableEq γ] :
    ∀ (l : List γ), l.Nodup → ∀ (i : Nat) (d : γ), i < l.length →
      index_of (l.getD i d) l = i
  | [], _, i, _, h => absurd h (by simp)
  | b :: l, hnd, i, d, h => by
    rw [List.nodup_cons] at hnd
    cases i with
    | zero =>
      unfold index_of
      rw [List.getD_cons_zero, if_pos rfl]
    | succ i =>
      unfold index_of
      rw [List.getD_cons_succ]
      have hi : i < l.length := by simpa using h
      have hmem : l.getD i d ∈ l := by
        rw [List.getD_eq_getElem l d hi]
        exact List.getElem_mem hi
      rw [if_neg (fun hb => hnd.1 (by rw [hb]; exact hmem)), index_of_getD l hnd.2 i d hi]

/-! ### Shape of the double-path grouping keys -/

theorem keys_shape (gs2 : List ResultRecord) (c1 c2 : String) (k : GroupKey)
    (hk : k ∈ (group_by gs2 (get_params_value [c1, c2])).map Prod.fst) :
    ∃ r ∈ gs2, k = [(c1, param_value r c1), (c2, param_value r c2)] := by
  obtain ⟨r, hr, hproj⟩ := (mem_group_by_keys _ gs2 k).mp hk
  exact ⟨r, hr, by rw [← hproj]; rfl⟩

theorem elems_of_keys (M : List (GroupKey × List ResultRecord)) :
    (elems_of M).map Prod.fst = M.map Prod.fst := by
  simp [elems_of, List.map_map]

theorem row_names_of_nodup (M : List (GroupKey × List ResultRecord)) :
    (row_names_of M).Nodup :=
  (py_sorted_perm _ _).nodup_iff.mpr (List.nodup_dedup _)

theorem col_names_of_nodup (M : List (GroupKey × List ResultRecord)) :
    (col_names_of M).Nodup :=
  (py_sorted_perm _ _).nodup_iff.mpr (List.nodup_dedup _)

theorem mem_row_names_of (gs2 : List ResultRecord) (c1 c2 : String)
    (p : String × Value) :
    p ∈ row_names_of (group_by gs2 (get_params_value [c1, c2])) ↔
      ∃ r ∈ gs2, p = (c1, param_value r c1) := by
  unfold row_names_of
  rw [mem_py_sorted, List.mem_dedup]
  constructor
  · intro hp
    obtain ⟨q, hq, rfl⟩ := List.mem_map.mp hp
    have hk : q.1 ∈ (group_by gs2 (get_params_value [c1, c2])).map Prod.fst := by
      rw [← elems_of_keys]
      exact List.mem_map.mpr ⟨q, hq, rfl⟩
    obtain ⟨r, hr, hshape⟩ := keys_shape gs2 c1 c2 q.1 hk
    exact ⟨r, hr, by rw [hshape]; rfl⟩
  · rintro ⟨r, hr, rfl⟩
    have hk : get_params_value [c1, c2] r ∈
        (group_by gs2 (get_params_value [c1, c2])).map Prod.fst :=
      (mem_group_by_keys _ gs2 _).mpr ⟨r, hr, rfl⟩
    rw [← elems_of_keys] at hk
    obtain ⟨q, hq, hq1⟩ := List.mem_map.mp hk
    refine List.mem_map.mpr ⟨q, hq, ?_⟩
    rw [hq1]
    rfl

theorem mem_col_names_of (gs2 : List ResultRecord) (c1 c2 : String)
    (p : String × Value) :
    p ∈ col_names_of (group_by gs2 (get_params_value [c1, c2])) ↔
      ∃ r ∈ gs2, p = (c2, param_value r c2) := by
  unfold col_names_of
  rw [mem_py_sorted, List.mem_dedup]
  constructor
  · intro hp
    obtain ⟨q, hq, rfl⟩ := List.mem_map.mp hp
    have hk : q.1 ∈ (group_by gs2 (get_params_value [c1, c2])).map Prod.fst := by
      rw [← elems_of_keys]
      exact List.mem_map.mpr ⟨q, hq, rfl⟩
    obtain ⟨r, hr, hshape⟩ := keys_shape gs2 c1 c2 q.1 hk
    exact ⟨r, hr, by rw [hshape]; rfl⟩
  · rintro ⟨r, hr, rfl⟩
    have hk : get_params_value [c1, c2] r ∈
        (group_by gs2 (get_params_value [c1, c2])).map Prod.fst :=
      (mem_group_by_keys _ gs2 _).mpr ⟨r, hr, rfl⟩
    rw [← elems_of_keys] at hk
    obtain ⟨q, hq, hq1⟩ := List.mem_map.mp hk
    refine List.mem_map.mpr ⟨q, hq, ?_⟩
    rw [hq1]
    rfl

theorem entries_of_in_range (gs2 : List ResultRecord) (c1 c2 : String) :
    ∀ e ∈ entries_of (group_by gs2 (get_params_value [c1, c2])),
      e.1.1 < (col_names_of (group_by gs2 (get_params_value [c1, c2]))).length ∧
      e.1.2 < (row_names_of (group_by gs2 (get_params_value [c1, c2]))).length := by
  intro e he
  unfold entries_of at he
  obtain ⟨q, hq, rfl⟩ := List.mem_map.mp he
  have hk : q.1 ∈ (group_by gs2 (get_params_value [c1, c2])).map Prod.fst := by
    rw [← elems_of_keys]
    exact List.mem_map.mpr ⟨q, hq, rfl⟩
  obtain ⟨r, hr, hshape⟩ := keys_shape gs2 c1 c2 q.1 hk
  dsimp only
  constructor
  · exact index_of_lt_length _ _
      ((mem_col_names_of gs2 c1 c2 _).mpr ⟨r, hr, by rw [hshape]; rfl⟩)
  · exact index_of_lt_length _ _
      ((mem_row_names_of gs2 c1 c2 _).mpr ⟨r, hr, by rw [hshape]; rfl⟩)

theorem entries_of_keys_nodup (gs2 : List ResultRecord) (c1 c2 : String) :
    ((entries_of (group_by gs2 (get_params_value [c1, c2]))).map
      Prod.fst).Nodup := by
  have h1 : (entries_of (group_by gs2 (get_params_value [c1, c2]))).map
      Prod.fst =
      ((group_by gs2 (get_params_value [c1, c2])).map Prod.fst).map (fun k =>
        (index_of (k.getD 1 dflt_pair)
          (col_names_of (group_by gs2 (get_params_value [c1, c2]))),
         index_of (k.getD 0 dflt_pair)
          (row_names_of (group_by gs2 (get_params_value [c1, c2]))))) := by
    rw [← elems_of_keys]
    simp [entries_of, List.map_map]
  rw [h1]
  refine List.Nodup.map_on ?_ (group_by_keys_nodup _ gs2)
  intro k1 hk1 k2 hk2 heq
  rw [Prod.mk.injEq] at heq
  obtain ⟨hc, hrw⟩ := heq
  obtain ⟨r1, hr1, hs1⟩ := keys_shape gs2 c1 c2 k1 hk1
  obtain ⟨r2, hr2, hs2⟩ := keys_shape gs2 c1 c2 k2 hk2
  have hm0a : k1.getD 0 dflt_pair ∈
      row_names_of (group_by gs2 (get_params_value [c1, c2])) :=
    (mem_row_names_of gs2 c1 c2 _).mpr ⟨r1, hr1, by rw [hs1]; rfl⟩
  have hm0b : k2.getD 0 dflt_pair ∈
      row_names_of (group_by gs2 (get_params_value [c1, c2])) :=
    (mem_row_names_of gs2 c1 c2 _).mpr ⟨r2, hr2, by rw [hs2]; rfl⟩
  have hm1a : k1.getD 1 dflt_pair ∈
      col_names_of (group_by gs2 (get_params_value [c1, c2])) :=
    (mem_col_names_of gs2 c1 c2 _).mpr ⟨r1, hr1, by rw [hs1]; rfl⟩
  have hm1b : k2.getD 1 dflt_pair ∈
      col_names_of (group_by gs2 (get_params_value [c1, c2])) :=
    (mem_col_names_of gs2 c1 c2 _).mpr ⟨r2, hr2, by rw [hs2]; rfl⟩
  have e0 : k1.getD 0 dflt_pair = k2.getD 0 dflt_pair := by
    rw [← getD_index_of (k1.getD 0 dflt_pair) _ dflt_pair hm0a,
      ← getD_index_of (k2.getD 0 dflt_pair) _ dflt_pair hm0b, hrw]
  have e1 : k1.getD 1 dflt_pair = k2.getD 1 dflt_pair := by
    rw [← getD_index_of (k1.getD 1 dflt_pair) _ dflt_pair hm1a,
      ← getD_index_of (k2.getD 1 dflt_pair) _ dflt_pair hm1b, hc]
  rw [hs1, hs2] at e0 e1 ⊢
  simp only [List.getD_cons_zero, List.getD_cons_succ] at e0 e1
  rw [e0, e1]

/-- The heatmap cell at (i, j) holds the mean score of the record whose
parameter pair equals (row value i, col value j), and zero when no record
matches. -/
theorem double_cell_spec (gs2 : List ResultRecord) (c1 c2 : String)
    (i j : Nat)
    (hi : i < (row_names_of (group_by gs2 (get_params_value [c1, c2]))).length)
    (hj : j < (col_names_of (group_by gs2 (get_params_value [c1, c2]))).length) :
    get_cell
      (fill_matrix (entries_of (group_by gs2 (get_params_value [c1, c2])))
        (row_names_of (group_by gs2 (get_params_value [c1, c2]))).length
        (col_names_of (group_by gs2 (get_params_value [c1, c2]))).length) i j =
    ((gs2.find? (fun r => get_params_value [c1, c2] r =
        [(row_names_of (group_by gs2 (get_params_value [c1, c2]))).getD i
           dflt_pair,
         (col_names_of (group_by gs2 (get_params_value [c1, c2]))).getD j
           dflt_pair])).map
      ResultRecord.mean_validation_score).getD Score.zero := by
  set M := group_by gs2 (get_params_value [c1, c2]) with hM
  have hndr := row_names_of_nodup M
  have hndc := col_names_of_nodup M
  rw [get_cell_fill_matrix (row_names_of M).length (col_names_of M).length
    (entries_of M) (entries_of_in_range gs2 c1 c2)
    (entries_of_keys_nodup gs2 c1 c2) i j]
  by_cases hmem : [(row_names_of M).getD i dflt_pair,
      (col_names_of M).getD j dflt_pair] ∈ M.map Prod.fst
  · obtain ⟨p0, hp0, hp0k⟩ := List.mem_map.mp hmem
    have hq : (p0.1, p0.2.headD dflt_record) ∈ elems_of M :=
      List.mem_map.mpr ⟨p0, hp0, rfl⟩
    have he : ((index_of (p0.1.getD 1 dflt_pair) (col_names_of M),
        index_of (p0.1.getD 0 dflt_pair) (row_names_of M)),
        (p0.2.headD dflt_record).mean_validation_score) ∈ entries_of M := by
      unfold entries_of
      exact List.mem_map.mpr ⟨(p0.1, p0.2.headD dflt_record), hq, rfl⟩
    have hgetd0 : p0.1.getD 0 dflt_pair =
        (row_names_of M).getD i dflt_pair := by
      rw [hp0k]
      rfl
    have hgetd1 : p0.1.getD 1 dflt_pair =
        (col_names_of M).getD j dflt_pair := by
      rw [hp0k]
      rfl
    have hrow : index_of (p0.1.getD 0 dflt_pair) (row_names_of M) = i := by
      rw [hgetd0, index_of_getD (row_names_of M) hndr i dflt_pair hi]
    have hcol : index_of (p0.1.getD 1 dflt_pair) (col_names_of M) = j := by
      rw [hgetd1, index_of_getD (col_names_of M) hndc j dflt_pair hj]
    have hfind := find?_eq_of_mem_of_nodup_keys (entries_of M)
      (entries_of_keys_nodup gs2 c1 c2) _ he
    rw [hcol, hrow] at hfind
    rw [hfind]
    have hfilter : p0.2 = gs2.filter (fun x =>
        get_params_value [c1, c2] x = p0.1) :=
      mem_group_by_eq_filter _ _ p0.1 p0.2 hp0
    rw [← hp0k, find?_eq_filter_head?, ← hfilter]
    cases hp02 : p0.2 with
    | nil => exact absurd hp02 (group_by_snd_ne_nil _ gs2 p0 hp0)
    | cons a t => simp [hp02]
  · have hfind : (entries_of M).find? (fun e => e.1 = (j, i)) = none := by
      rw [List.find?_eq_none]
      intro e he hcontra
      simp only [decide_eq_true_eq] at hcontra
      unfold entries_of at he
      obtain ⟨q, hq, rfl⟩ := List.mem_map.mp he
      have hk : q.1 ∈ M.map Prod.fst := by
        rw [← elems_of_keys]
        exact List.mem_map.mpr ⟨q, hq, rfl⟩
      obtain ⟨r, hr, hshape⟩ := keys_shape gs2 c1 c2 q.1 hk
      rw [Prod.mk.injEq] at hcontra
      obtain ⟨hc2, hr2⟩ := hcontra
      have hm0 : q.1.getD 0 dflt_pair ∈ row_names_of M :=
        (mem_row_names_of gs2 c1 c2 _).mpr ⟨r, hr, by rw [hshape]; rfl⟩
      have hm1 : q.1.getD 1 dflt_pair ∈ col_names_of M :=
        (mem_col_names_of gs2 c1 c2 _).mpr ⟨r, hr, by rw [hshape]; rfl⟩
      have e0 : (row_names_of M).getD i dflt_pair = q.1.getD 0 dflt_pair := by
        rw [← hr2, getD_index_of _ _ _ hm0]
      have e1 : (col_names_of M).getD j dflt_pair = q.1.getD 1 dflt_pair := by
        rw [← hc2, getD_index_of _ _ _ hm1]
      apply hmem
      rw [e0, e1]
      have hq2 : q.1 = [q.1.getD 0 dflt_pair, q.1.getD 1 dflt_pair] := by
        rw [hshape]
        rfl
      rw [← hq2]
      exact hk
    have hfind2 : gs2.find? (fun r => get_params_value [c1, c2] r =
        [(row_names_of M).getD i dflt_pair,
         (col_names_of M).getD j dflt_pair]) = none := by
      rw [List.find?_eq_none]
      intro r hr hcontra
      simp only [decide_eq_true_eq] at hcontra
      exact hmem ((mem_group_by_keys _ gs2 _).mpr ⟨r, hr, hcontra⟩)
    rw [hfind, hfind2]
    rfl

/-- C2: every successful two-parameter call sorts the distinct row and
column (name, value) pairs with None-values last and natural order
otherwise, builds a dense rows×cols matrix, fills each cell whose
(row-value, col-value) pair has a matching record with that record's mean
score and leaves the rest at zero; the scenario changeParams = ('n','k')
yields the 2×2 matrix [[0.5, 0.7], [0.6, 0]] with a zero for the missing
(n=2, k=b) combination. -/
theorem claim_C2_double_matrix (gs : List ResultRecord) (c1 c2 : String)
    (subset : Option Subset) (sort : Bool) (res : DoubleResult)
    (gs2 : List ResultRecord)
    (hok : grid_search_double gs c1 c2 subset sort = .ok res)
    (hf : double_filtered gs subset sort = .ok gs2) :
    (res.row_names.Pairwise (fun a b => none_last_le a b = true) ∧
     res.col_names.Pairwise (fun a b => none_last_le a b = true) ∧
     (∀ p, p ∈ res.row_names ↔ ∃ r ∈ gs2, p = (c1, param_value r c1)) ∧
     (∀ p, p ∈ res.col_names ↔ ∃ r ∈ gs2, p = (c2, param_value r c2)) ∧
     res.matrix.length = res.row_names.length ∧
     (∀ row ∈ res.matrix, row.length = res.col_names.length) ∧
     (∀ i j, i < res.row_names.length → j < res.col_names.length →
       get_cell res.matrix i j =
         ((gs2.find? (fun r => get_params_value [c1, c2] r =
             [res.row_names.getD i dflt_pair,
              res.col_names.getD j dflt_pair])).map
           ResultRecord.mean_validation_score).getD Score.zero)) ∧
    grid_search_double scenario_records "n" "k" none true =
      .ok scenario_double_result := by
  constructor
  · have hne : c1 ≠ c2 := by
      intro hcontra
      unfold grid_search_double at hok
      rw [if_pos hcontra] at hok
      exact Except.noConfusion hok
    rw [grid_search_double_ok_reduce gs c1 c2 subset sort gs2 hne hf] at hok
    unfold double_from_elements at hok
    by_cases hany : (group_by gs2 (get_params_value [c1, c2])).any
        (fun p => decide (1 < p.2.length)) = true
    · rw [if_pos hany] at hok
      exact absurd hok (by simp)
    · rw [if_neg hany, Except.ok.injEq] at hok
      subst hok
      refine ⟨?_, ?_, ?_, ?_, ?_, ?_, ?_⟩
      · exact pairwise_py_sorted none_last_le none_last_le_trans
          none_last_le_total _
      · exact pairwise_py_sorted none_last_le none_last_le_trans
          none_last_le_total _
      · exact mem_row_names_of gs2 c1 c2
      · exact mem_col_names_of gs2 c1 c2
      · exact (fill_matrix_shape _ _ _).1
      · exact (fill_matrix_shape _ _ _).2
      · exact double_cell_spec gs2 c1 c2
  · decide

/-- Witness for C2 at the spec scenario: the rows are sorted, and the
missing (n=2, k='b') cell holds zero. -/
theorem claim_C2_double_matrix_witness :
    scenario_double_result.row_names.Pairwise
      (fun a b => none_last_le a b = true) ∧
    get_cell scenario_double_result.matrix 1 1 = Score.zero := by
  have h := claim_C2_double_matrix scenario_records "n" "k" none true
    scenario_double_result scenario_records (by decide) rfl
  refine ⟨h.1.1, ?_⟩
  rw [h.1.2.2.2.2.2.2 1 1 (by decide) (by decide)]
  decide
